import Mathlib

/-!
Verification of the mix/recommendation assembly engine (`app/plugins/mixes.py`).

The Python code is shallowly embedded: the track/album/artist stores, the
remote recommendation service, the random sampler and the balancing function
are external collaborators, so they are passed in an explicit `Env` record.
Python exceptions that can escape the plugin (KeyError, IndexError) are made
explicit with `Except PyErr`.
-/

set_option maxRecDepth 100000

namespace Mixes

/-- An artist reference as stored on a track: `{artisthash, name}`. -/
structure ArtistRef where
  artisthash : String
  name : String
deriving DecidableEq, Repr

/-- A track record, with the fields `mixes.py` reads. -/
structure Track where
  trackhash : String
  weakhash : String
  title : String
  artists : List ArtistRef
  og_album : String
  bitrate : Nat
  playduration : Nat
deriving DecidableEq, Repr

/-- An artist record as returned by `ArtistStore.get_artist_by_hash`. -/
structure Artist where
  artisthash : String
  name : String
  image : String
  color : String
deriving DecidableEq, Repr

/-- The album data reachable from an `AlbumStore.albummap` entry. -/
structure AlbumInfo where
  weakhash : String
  og_title : String
deriving DecidableEq, Repr

/-- An `AlbumStore.albummap` entry: album data plus its member track hashes. -/
structure AlbumEntry where
  album : AlbumInfo
  trackhashes : List String
deriving DecidableEq, Repr

/-- An `ArtistStore.artistmap` entry: artist data plus its track hashes. -/
structure ArtistEntry where
  artist : Artist
  trackhashes : List String
deriving DecidableEq, Repr

/-- One query object sent to the remote `/radio` endpoint. -/
structure Query where
  query : String
  album : String
  with_help : Bool
deriving DecidableEq, Repr

/-- A decoded JSON payload from the remote service.  Each field is optional:
`results["tracks"]` on a payload whose dict lacks the key raises `KeyError`. -/
structure RadioPayload where
  tracks : Option (List String)
  albums : Option (List String)
  artists : Option (List String)
deriving DecidableEq, Repr

/-- Outcome of the `POST /radio` call: connection failure, JSON decode
failure, or a decoded payload. -/
inductive RadioResponse where
  | connError
  | decodeError
  | payload (p : RadioPayload)
deriving DecidableEq, Repr

/-- Outcome of the `GET /image` call: connection failure, or a response with
a status code and (when the body is processed) the extracted colors. -/
inductive ImageResult where
  | connError
  | response (status : Nat) (colors : List String)
deriving DecidableEq, Repr

/-- Python exceptions that can escape the plugin methods. -/
inductive PyErr where
  | keyError (key : String)
  | indexError
deriving DecidableEq, Repr

/-- An artist row from `get_artists_in_period`: `{artisthash, artist}`. -/
structure PeriodArtist where
  artisthash : String
  artist : String
deriving DecidableEq, Repr

/-- The `image` bag stored in a Mix's `extra`. -/
structure MixImage where
  image : String
  color : String
deriving DecidableEq, Repr

/-- The produced Mix entity, with its `extra` bag flattened. -/
structure Mix where
  id : String
  title : String
  description : String
  tracks : List String
  extra_type : String
  extra_artisthash : String
  extra_image : MixImage
deriving DecidableEq, Repr

/-- The external collaborators of the plugin: the in-memory stores, the
remote service, the random sampler, the balancing function and the
per-period activity queries. -/
structure Env where
  flatTracks : List Track
  tracksByHashes : List String → List Track
  albummap : List AlbumEntry
  artistmap : List ArtistEntry
  radio : List Query → RadioResponse
  imageFetch : Artist → ImageResult
  choose : List Track → Track
  balance : List Track → List Track
  todayArtists : List PeriodArtist
  last2DaysArtists : List PeriodArtist
  last7DaysArtists : List PeriodArtist
  last1MonthArtists : List PeriodArtist

def MAX_TRACKS_TO_FETCH : Nat := 5
def TRACK_MIX_LENGTH : Nat := 50
def MIN_TRACK_MIX_LENGTH : Nat := 15

/-- The query batch built from the seed tracks: title, comma-joined artist
names, original album, and the help flag. -/
def buildQueries (tracks : List Track) (with_help : Bool) : List Query :=
  tracks.map fun t =>
    { query := t.title ++ " - " ++ String.intercalate "," (t.artists.map (fun a => a.name)),
      album := t.og_album,
      with_help := with_help }

/-- One step of the `grouped.setdefault(track.weakhash, []).append(track)`
loop: dict keys in first-insertion order, group members in append order. -/
def groupInsert (acc : List (String × List Track)) (t : Track) :
    List (String × List Track) :=
  if acc.any (fun p => p.1 == t.weakhash) then
    acc.map (fun p => if p.1 == t.weakhash then (p.1, p.2 ++ [t]) else p)
  else
    acc ++ [(t.weakhash, [t])]

/-- Group a track list by weak hash, mirroring the Python dict build. -/
def groupByWeakhash (ts : List Track) : List (String × List Track) :=
  ts.foldl groupInsert []

/-- Python `max(group, key=...)`: the first element attaining the maximum. -/
def pyMax (f : Track → Nat) : List Track → Option Track
  | [] => none
  | x :: xs => some (xs.foldl (fun best t => if f best < f t then t else best) x)

/-- Keep one representative per weak hash: the highest-bitrate member of each
group (ties resolved to the first seen, as Python `max` does). -/
def dedupByWeakhash (ts : List Track) : List Track :=
  (groupByWeakhash ts).filterMap (fun p => pyMax (fun t => t.bitrate) p.2)

/-- `sorted(trackmatches, key=lambda x: trackhashes.index(x.weakhash))`:
a stable sort by position of the weak hash in the remote response list. -/
def sortByResponseIndex (trackhashes : List String) (ts : List Track) : List Track :=
  List.insertionSort
    (fun a b => trackhashes.indexOf a.weakhash ≤ trackhashes.indexOf b.weakhash) ts

/-- The remote-derived portion of a track mix: local tracks whose weak hash
occurs in the response, deduplicated by weak hash, ordered by position of the
weak hash in the response list (`mixes.py` lines 91-105). -/
def remotePortion (env : Env) (trackhashes : List String) : List Track :=
  sortByResponseIndex trackhashes
    (dedupByWeakhash (env.flatTracks.filter (fun t => decide (t.weakhash ∈ trackhashes))))

/-- One iteration of a fallback loop body: stop once `limit` is reached,
otherwise list the entity's tracks whose weak hash is not omitted and, when
any remain, append one chosen by the (injected) random sampler. -/
def fbStep (env : Env) (omit_trackhashes : List String) (limit : Nat)
    (acc : List Track) (hashes : List String) : List Track :=
  if limit ≤ acc.length then acc
  else
    let candidates := (env.tracksByHashes hashes).filter
      (fun t => decide (t.weakhash ∉ omit_trackhashes))
    if candidates.isEmpty then acc
    else acc ++ [env.choose candidates]

/-- `MixesPlugin.fallback_create_artist_mix`: fill a mix with up to `limit`
tracks, first one per locally known album in `similar_albums`, then one per
locally known artist in `similar_artists`, always skipping omitted weak
hashes.  The `artist` argument is unused by the live code. -/
def fallback_create_artist_mix (env : Env) (artist : ArtistRef)
    (similar_albums similar_artists : List String)
    (omit_trackhashes : List String) (limit : Nat) : List Track :=
  let albummatches := env.albummap.filter
    (fun a => decide (a.album.weakhash ∈ similar_albums))
  let afterAlbums := albummatches.foldl
    (fun acc m => fbStep env omit_trackhashes limit acc m.trackhashes) []
  let artistmatches := env.artistmap.filter
    (fun a => decide (a.artist.artisthash ∈ similar_artists))
  artistmatches.foldl
    (fun acc m => fbStep env omit_trackhashes limit acc m.trackhashes) afterAlbums

/-- `MixesPlugin.get_track_mix`: query the remote service with the seed
tracks, resolve the returned weak hashes locally, dedup and order them, top
up with the fallback sampler when short of `TRACK_MIX_LENGTH`, and balance.
Connection and JSON-decode failures yield `[]`; a decoded payload missing an
expected key raises `KeyError`, and an empty seed reaching the fallback call
raises `IndexError`. -/
def get_track_mix (env : Env) (tracks : List Track) (with_help : Bool) :
    Except PyErr (List Track) :=
  match env.radio (buildQueries tracks with_help) with
  | .connError => .ok []
  | .decodeError => .ok []
  | .payload p =>
    match p.tracks with
    | none => .error (.keyError "tracks")
    | some trackhashes =>
      let trackmatches := remotePortion env trackhashes
      if trackmatches.length < TRACK_MIX_LENGTH then
        match tracks.head? with
        | none => .error .indexError
        | some t0 =>
          match t0.artists.head? with
          | none => .error .indexError
          | some a0 =>
            match p.artists with
            | none => .error (.keyError "artists")
            | some sim_artists =>
              match p.albums with
              | none => .error (.keyError "albums")
              | some sim_albums =>
                let filler := fallback_create_artist_mix env a0 sim_albums sim_artists
                  (trackmatches.map (fun t => t.weakhash))
                  (TRACK_MIX_LENGTH - trackmatches.length)
                .ok (env.balance (trackmatches ++ filler))
      else
        .ok (env.balance trackmatches)

/-- `MixesPlugin.get_artist_mix`: an unguarded `ArtistStore.artistmap[...]`
lookup (KeyError when absent), then the artist's tracks sorted by play
duration descending, the top `MAX_TRACKS_TO_FETCH` seeding `get_track_mix`. -/
def get_artist_mix (env : Env) (artisthash : String) : Except PyErr (List Track) :=
  match env.artistmap.find? (fun e => e.artist.artisthash == artisthash) with
  | none => .error (.keyError artisthash)
  | some entry =>
    let tracks := env.tracksByHashes entry.trackhashes
    let sorted := List.insertionSort (fun a b => b.playduration ≤ a.playduration) tracks
    get_track_mix env (sorted.take MAX_TRACKS_TO_FETCH) false

/-- The collection loop of `get_mix_description`: walk the tracklist and,
while fewer than 4 artists are collected, append each track's first artist
when it is neither the subject artist nor already collected.  Reading
`track.artists[0]` on a track with no artists raises `IndexError`. -/
def descLoop (artishash : String) : List Track → List ArtistRef →
    Except PyErr (List ArtistRef)
  | [], acc => .ok acc
  | t :: ts, acc =>
    if acc.length < 4 then
      match t.artists.head? with
      | none => .error .indexError
      | some a0 =>
        if a0.artisthash ≠ artishash ∧ a0.artisthash ∉ acc.map (fun a => a.artisthash) then
          descLoop artishash ts (acc ++ [a0])
        else
          descLoop artishash ts acc
    else
      descLoop artishash ts acc

/-- The formatting step of `get_mix_description`: exactly 4 collected
artists give a trailing " and more", 1 to 3 a plain comma list, and 0 falls
back to the first track's first artist (an `IndexError` when the tracklist
or its first track's artist list is empty). -/
def formatDescription (tracks : List Track) (first_4_artists : List ArtistRef) :
    Except PyErr String :=
  if first_4_artists.length = 4 then
    .ok ("Featuring " ++ String.intercalate ", " (first_4_artists.map (fun a => a.name))
      ++ " and more")
  else if 0 < first_4_artists.length then
    .ok ("Featuring " ++ String.intercalate ", " (first_4_artists.map (fun a => a.name)))
  else
    match tracks.head? with
    | none => .error .indexError
    | some t0 =>
      match t0.artists.head? with
      | none => .error .indexError
      | some a0 => .ok ("Featuring " ++ a0.name)

/-- `MixesPlugin.get_mix_description`: collect the first 4 distinct
non-subject primary artists of the tracklist, then format them. -/
def get_mix_description (tracks : List Track) (artishash : String) :
    Except PyErr String :=
  match descLoop artishash tracks [] with
  | .error e => .error e
  | .ok first_4_artists => formatDescription tracks first_4_artists

/-- Modelled from the spec: `ArtistStore.get_artist_by_hash` is not under
`src/`; per the spec the assembler "resolves the artist in the repository;
if absent, assembly fails silently", so the lookup returns the artist when
the hash is in the store and nothing otherwise. -/
def get_artist_by_hash (env : Env) (artisthash : String) : Option Artist :=
  (env.artistmap.find? (fun e => e.artist.artisthash == artisthash)).map
    (fun e => e.artist)

/-- An outbound HTTP request together with the timeout it was issued with
(`none` when the `requests` call passes no `timeout=` argument). -/
structure HttpCall where
  url : String
  timeout : Option Nat
deriving DecidableEq, Repr

/-- The startup liveness probe request (`requests.get(self.server, timeout=10)`). -/
def pingServerCall (server : String) : HttpCall :=
  { url := server, timeout := some 10 }

/-- The recommendation request (`requests.post(f"{self.server}/radio", ..., timeout=10)`). -/
def radioCall (server : String) : HttpCall :=
  { url := server ++ "/radio", timeout := some 10 }

/-- The artist-image request of `download_artist_image`:
`requests.get(f"{self.server}/image?artist={artist.name}")`, issued with no
`timeout=` argument. -/
def downloadArtistImageCall (server : String) (artistName : String) : HttpCall :=
  { url := server ++ "/image?artist=" ++ artistName, timeout := none }

/-- `MixesPlugin.download_artist_image`: `None` on connection failure or a
non-200 status; on 200 the image files are written and the extracted colors
of the resized image are returned. -/
def download_artist_image (env : Env) (artist : Artist) : Option (List String) :=
  match env.imageFetch artist with
  | .connError => none
  | .response status colors => if status = 200 then some colors else none

/-- `MixesPlugin.create_artist_mix`: nothing when the artist is gone from the
store or the assembled tracklist is shorter than `MIN_TRACK_MIX_LENGTH`;
otherwise a Mix whose image defaults to the stored artist image/color and is
overwritten only when the artwork download yields a non-empty color list. -/
def create_artist_mix (env : Env) (artist : PeriodArtist) :
    Except PyErr (Option Mix) :=
  match get_artist_by_hash env artist.artisthash with
  | none => .ok none
  | some a =>
    match get_artist_mix env artist.artisthash with
    | .error e => .error e
    | .ok mix_tracks =>
      if mix_tracks.length < MIN_TRACK_MIX_LENGTH then .ok none
      else
        let mix_image :=
          match download_artist_image env a with
          | some (c :: _) => { image := a.artisthash ++ ".jpg", color := c : MixImage }
          | _ => { image := a.image, color := a.color : MixImage }
        match get_mix_description mix_tracks artist.artisthash with
        | .error e => .error e
        | .ok description =>
          .ok (some {
            id := "a" ++ artist.artisthash,
            title := artist.artist ++ " Radio",
            description := description,
            tracks := mix_tracks.map (fun t => t.trackhash),
            extra_type := "artist",
            extra_artisthash := artist.artisthash,
            extra_image := mix_image })

/-- The inner loop of `create_artist_mixes` over one period's candidates:
stop at the effective limit, skip artists already indexed this run, and on a
successful assembly record the mix, the artist hash and the created count. -/
def windowLoop (env : Env) (limit : Nat) :
    List PeriodArtist → List Mix × List String × Nat →
    Except PyErr (List Mix × List String × Nat)
  | [], st => .ok st
  | a :: rest, (mixes, indexed, created) =>
    if limit ≤ created then .ok (mixes, indexed, created)
    else if a.artisthash ∈ indexed then
      windowLoop env limit rest (mixes, indexed, created)
    else
      match create_artist_mix env a with
      | .error e => .error e
      | .ok none => windowLoop env limit rest (mixes, indexed, created)
      | .ok (some m) =>
        windowLoop env limit rest (mixes ++ [m], indexed ++ [a.artisthash], created + 1)

/-- A period's effective limit: its own cap plus, when the immediately
preceding period (`previous = some (max, created)`) created fewer mixes than
its own cap, that difference. -/
def effectiveLimit (cap : Nat) (previous : Option (Nat × Nat)) : Nat :=
  cap +
    match previous with
    | some (pmax, pcreated) => if pcreated < pmax then pmax - pcreated else 0
    | none => 0

/-- The outer loop of `create_artist_mixes` over the periods.  Returns the
mixes and the per-period created counts. -/
def periodsLoop (env : Env) :
    List (Nat × List PeriodArtist) → Option (Nat × Nat) → List Mix → List String →
    Except PyErr (List Mix × List Nat)
  | [], _, mixes, _ => .ok (mixes, [])
  | (cap, candidates) :: rest, previous, mixes, indexed =>
    match windowLoop env (effectiveLimit cap previous) candidates (mixes, indexed, 0) with
    | .error e => .error e
    | .ok (mixes2, indexed2, created) =>
      match periodsLoop env rest (some (cap, created)) mixes2 indexed2 with
      | .error e => .error e
      | .ok (finalMixes, counts) => .ok (finalMixes, created :: counts)

/-- The four trailing windows of `create_artist_mixes` with their caps, in
the fixed evaluation order. -/
def runPeriods (env : Env) : List (Nat × List PeriodArtist) :=
  [(3, env.todayArtists), (2, env.last2DaysArtists),
   (3, env.last7DaysArtists), (2, env.last1MonthArtists)]

/-- `MixesPlugin.create_artist_mixes`: run the quota allocator over the four
windows, starting from no mixes and an empty indexed set. -/
def create_artist_mixes (env : Env) : Except PyErr (List Mix × List Nat) :=
  periodsLoop env (runPeriods env) none [] []

/-- The weak hash of the track stored under a given track hash, read back
from the flat track list (used to state weak-hash properties of a Mix's
tracklist, which records strong hashes). -/
def weakhashOf (env : Env) (trackhash : String) : String :=
  ((env.flatTracks.find? (fun t => t.trackhash == trackhash)).map
    (fun t => t.weakhash)).getD ""

/-- The mixes of a run, discarding the per-period counts (and any escaped
exception, which does not occur on the environments used below). -/
def runMixes (env : Env) : List Mix :=
  match create_artist_mixes env with
  | .ok (mixes, _) => mixes
  | .error _ => []

/-- The tracklist of a successful `get_track_mix` call. -/
def okTracks (r : Except PyErr (List Track)) : List Track :=
  match r with
  | .ok l => l
  | .error _ => []

/-- First-occurrence deduplication of artist references by `artisthash`,
used to phrase the spec's description rule. -/
def dedupArtistsBy (seen : List String) : List ArtistRef → List ArtistRef
  | [] => []
  | a :: as =>
    if a.artisthash ∈ seen then dedupArtistsBy seen as
    else a :: dedupArtistsBy (seen ++ [a.artisthash]) as

/-- The primary (first) artist of each track, in tracklist order. -/
def primaryArtists (tracks : List Track) : List ArtistRef :=
  tracks.filterMap (fun t => t.artists.head?)

/-- Stated from the spec: the first 4 distinct artists (by artisthash) that
are not the mix's subject artist, in tracklist order. -/
def specFeaturedArtists (tracks : List Track) (subject : String) : List ArtistRef :=
  (dedupArtistsBy []
    ((primaryArtists tracks).filter (fun a => decide (a.artisthash ≠ subject)))).take 4

/-- Stated from the spec: exactly 4 distinct co-artists give a trailing
" and more", 1 to 3 a plain comma list, 0 the fallback sentence naming the
first track's first artist. -/
def specDescription (tracks : List Track) (subject : String) : String :=
  if (specFeaturedArtists tracks subject).length = 4 then
    "Featuring " ++ String.intercalate ", "
      ((specFeaturedArtists tracks subject).map (fun a => a.name)) ++ " and more"
  else if 0 < (specFeaturedArtists tracks subject).length then
    "Featuring " ++ String.intercalate ", "
      ((specFeaturedArtists tracks subject).map (fun a => a.name))
  else
    "Featuring " ++
      (((tracks.head?).bind (fun t => t.artists.head?)).map (fun a => a.name)).getD ""

/-- A placeholder track, only used as the default of `List.headD` in the
deterministic sampler below. -/
def defaultTrack : Track :=
  { trackhash := "", weakhash := "", title := "", artists := [],
    og_album := "", bitrate := 0, playduration := 0 }

/-- A deterministic instance of the injected random sampler: pick the first
candidate. -/
def headChoose (l : List Track) : Track := l.headD defaultTrack

/-- An environment with empty stores, an unreachable remote and no listening
activity. -/
def emptyEnv : Env :=
  { flatTracks := [],
    tracksByHashes := fun _ => [],
    albummap := [],
    artistmap := [],
    radio := fun _ => .connError,
    imageFetch := fun _ => .connError,
    choose := headChoose,
    balance := id,
    todayArtists := [],
    last2DaysArtists := [],
    last7DaysArtists := [],
    last1MonthArtists := [] }

/-- The subject artist of the duplicate-weak-hash scenario. -/
def cexSubject : ArtistRef := ⟨"ah0", "Art0"⟩

/-- The artist credited on the two fallback album tracks of the scenario. -/
def cexOther : ArtistRef := ⟨"ahX", "ArtX"⟩

/-- The i-th locally resolvable remote track of the scenario. -/
def cexRemoteTrack (i : Nat) : Track :=
  { trackhash := "t" ++ toString i, weakhash := "w" ++ toString i,
    title := "T" ++ toString i, artists := [cexSubject], og_album := "A",
    bitrate := 320, playduration := 10 }

/-- A track on the first similar album, weak hash `wdup`. -/
def cexTa : Track :=
  { trackhash := "ta", weakhash := "wdup", title := "TA", artists := [cexOther],
    og_album := "AlbumOne", bitrate := 320, playduration := 1 }

/-- A different file of the same recording on the second similar album:
same weak hash `wdup`, distinct track hash. -/
def cexTb : Track :=
  { trackhash := "tb", weakhash := "wdup", title := "TB", artists := [cexOther],
    og_album := "AlbumTwo", bitrate := 320, playduration := 1 }

/-- The track store of the scenario. -/
def cexFlat : List Track := (List.range 13).map cexRemoteTrack ++ [cexTa, cexTb]

/-- The weak hashes the remote service returns in the scenario. -/
def cexHashes : List String := (List.range 13).map (fun i => "w" ++ toString i)

/-- The subject artist as a period-activity row. -/
def cexTodayArtist : PeriodArtist := ⟨"ah0", "Art0"⟩

/-- A run environment in which the remote resolves 13 tracks and the two
fallback album picks share the weak hash `wdup`: 15 tracks assembled, so a
Mix is created, with a duplicated weak hash in its tracklist. -/
def cexEnv : Env :=
  { flatTracks := cexFlat,
    tracksByHashes := fun hs => cexFlat.filter (fun t => decide (t.trackhash ∈ hs)),
    albummap := [⟨⟨"walb1", "AlbumOne"⟩, ["ta"]⟩, ⟨⟨"walb2", "AlbumTwo"⟩, ["tb"]⟩],
    artistmap := [⟨⟨"ah0", "Art0", "img0", "col0"⟩,
      (List.range 13).map (fun i => "t" ++ toString i)⟩],
    radio := fun _ => .payload ⟨some cexHashes, some ["walb1", "walb2"], some []⟩,
    imageFetch := fun _ => .connError,
    choose := headChoose,
    balance := id,
    todayArtists := [cexTodayArtist],
    last2DaysArtists := [],
    last7DaysArtists := [],
    last1MonthArtists := [] }

/-- The Mix the scenario run produces. -/
def cexMix : Mix :=
  { id := "aah0",
    title := "Art0 Radio",
    description := "Featuring ArtX",
    tracks := ["t0", "t1", "t2", "t3", "t4", "t5", "t6", "t7", "t8", "t9",
               "t10", "t11", "t12", "ta", "tb"],
    extra_type := "artist",
    extra_artisthash := "ah0",
    extra_image := { image := "img0", color := "col0" } }

/-- The i-th track of the 55-unique-weak-hashes scenario. -/
def c4Track (i : Nat) : Track :=
  { trackhash := "t" ++ toString i, weakhash := "w" ++ toString i,
    title := "T" ++ toString i, artists := [cexSubject], og_album := "A",
    bitrate := 128, playduration := 1 }

/-- The 55 unique weak hashes the remote returns in that scenario. -/
def c4Hashes : List String := (List.range 55).map (fun i => "w" ++ toString i)

/-- The 55 locally resolvable tracks of that scenario, in repository order
(which already matches the response order). -/
def c4Resolved : List Track := (List.range 55).map c4Track

/-- An environment whose remote response carries 55 unique weak hashes, all
resolvable locally, parameterized by the balancing function. -/
def c4Env (balance : List Track → List Track) : Env :=
  { flatTracks := c4Resolved,
    tracksByHashes := fun _ => [],
    albummap := [],
    artistmap := [],
    radio := fun _ => .payload ⟨some c4Hashes, some [], some []⟩,
    imageFetch := fun _ => .connError,
    choose := headChoose,
    balance := balance,
    todayArtists := [],
    last2DaysArtists := [],
    last7DaysArtists := [],
    last1MonthArtists := [] }

/-- The seed tracklist fed to `get_track_mix` in the 55-hash scenario. -/
def c4Seed : List Track := [c4Track 0]

/-- An environment whose remote response decodes to a payload without the
expected "tracks" key. -/
def c3Env : Env :=
  { emptyEnv with radio := fun _ => .payload ⟨none, none, none⟩ }

/-- The invariant tying a grouping accumulator to the tracks already
processed: keys are distinct, every group is a nonempty list of processed
tracks carrying that weak hash, every processed track's weak hash is a key,
and every processed track is in the group of its weak hash. -/
def GroupInv (processed : List Track) (acc : List (String × List Track)) : Prop :=
  (acc.map Prod.fst).Nodup ∧
  (∀ p ∈ acc, p.2 ≠ [] ∧ ∀ t ∈ p.2, t ∈ processed ∧ t.weakhash = p.1) ∧
  (∀ t ∈ processed, t.weakhash ∈ acc.map Prod.fst) ∧
  (∀ t ∈ processed, ∀ p ∈ acc, t.weakhash = p.1 → t ∈ p.2)

/-! Helper lemmas shared by the claim theorems. -/

theorem headChoose_mem (l : List Track) (hl : l ≠ []) : headChoose l ∈ l := by
  cases l with
  | nil => exact absurd rfl hl
  | cons a as => simp [headChoose]

theorem fbStep_inv (env : Env) (omit_trackhashes : List String) (limit : Nat)
    (hchoose : ∀ l, l ≠ [] → env.choose l ∈ l)
    (acc : List Track) (hashes : List String)
    (hlen : acc.length ≤ limit)
    (homit : ∀ t ∈ acc, t.weakhash ∉ omit_trackhashes) :
    (fbStep env omit_trackhashes limit acc hashes).length ≤ limit ∧
    ∀ t ∈ fbStep env omit_trackhashes limit acc hashes,
      t.weakhash ∉ omit_trackhashes := by
  unfold fbStep
  by_cases hfull : limit ≤ acc.length
  · rw [if_pos hfull]
    exact ⟨hlen, homit⟩
  · rw [if_neg hfull]
    simp only []
    set candidates := (env.tracksByHashes hashes).filter
      (fun t => decide (t.weakhash ∉ omit_trackhashes)) with hc
    by_cases hemp : candidates.isEmpty = true
    · rw [if_pos hemp]
      exact ⟨hlen, homit⟩
    · rw [if_neg hemp]
      have hne : candidates ≠ [] := by
        intro hnil
        rw [hnil] at hemp
        exact hemp rfl
      have hmem : env.choose candidates ∈ candidates := hchoose candidates hne
      have homit2 : (env.choose candidates).weakhash ∉ omit_trackhashes := by
        have := List.of_mem_filter (hc ▸ hmem)
        exact of_decide_eq_true this
      constructor
      · simp only [List.length_append, List.length_singleton]
        omega
      · intro t ht
        rcases List.mem_append.mp ht with h1 | h1
        · exact homit t h1
        · rcases List.mem_singleton.mp h1 with rfl
          exact homit2

theorem foldl_fbStep_inv {β : Type} (env : Env) (omit_trackhashes : List String)
    (limit : Nat) (hchoose : ∀ l, l ≠ [] → env.choose l ∈ l)
    (key : β → List String) :
    ∀ (ms : List β) (acc : List Track),
      acc.length ≤ limit → (∀ t ∈ acc, t.weakhash ∉ omit_trackhashes) →
      ((ms.foldl (fun acc m => fbStep env omit_trackhashes limit acc (key m)) acc).length
          ≤ limit ∧
        ∀ t ∈ ms.foldl (fun acc m => fbStep env omit_trackhashes limit acc (key m)) acc,
          t.weakhash ∉ omit_trackhashes)
  | [], acc, h1, h2 => ⟨h1, h2⟩
  | m :: ms, acc, h1, h2 => by
    simp only [List.foldl_cons]
    obtain ⟨h1x, h2x⟩ := fbStep_inv env omit_trackhashes limit hchoose acc (key m) h1 h2
    exact foldl_fbStep_inv env omit_trackhashes limit hchoose key ms _ h1x h2x

theorem fallback_inv (env : Env) (hchoose : ∀ l, l ≠ [] → env.choose l ∈ l)
    (artist : ArtistRef) (similar_albums similar_artists omit_trackhashes : List String)
    (limit : Nat) :
    (fallback_create_artist_mix env artist similar_albums similar_artists
        omit_trackhashes limit).length ≤ limit ∧
    ∀ t ∈ fallback_create_artist_mix env artist similar_albums similar_artists
        omit_trackhashes limit, t.weakhash ∉ omit_trackhashes := by
  unfold fallback_create_artist_mix
  obtain ⟨h1, h2⟩ := foldl_fbStep_inv env omit_trackhashes limit hchoose
    (fun a : AlbumEntry => a.trackhashes)
    (env.albummap.filter (fun a => decide (a.album.weakhash ∈ similar_albums)))
    [] (by simp) (by simp)
  exact foldl_fbStep_inv env omit_trackhashes limit hchoose
    (fun a : ArtistEntry => a.trackhashes)
    (env.artistmap.filter (fun a => decide (a.artist.artisthash ∈ similar_artists)))
    _ h1 h2

theorem create_artist_mix_ok (env : Env) (pa : PeriodArtist) (m : Mix)
    (h : create_artist_mix env pa = .ok (some m)) :
    ∃ a mix_tracks,
      get_artist_by_hash env pa.artisthash = some a ∧
      get_artist_mix env pa.artisthash = .ok mix_tracks ∧
      ¬ mix_tracks.length < MIN_TRACK_MIX_LENGTH ∧
      m.extra_artisthash = pa.artisthash ∧
      m.tracks = mix_tracks.map (fun t => t.trackhash) ∧
      m.extra_image = (match download_artist_image env a with
        | some (c :: _) => { image := a.artisthash ++ ".jpg", color := c : MixImage }
        | _ => { image := a.image, color := a.color : MixImage }) := by
  unfold create_artist_mix at h
  cases hga : get_artist_by_hash env pa.artisthash with
  | none => rw [hga] at h; simp at h
  | some a =>
    rw [hga] at h
    cases hgm : get_artist_mix env pa.artisthash with
    | error e => rw [hgm] at h; simp at h
    | ok mix_tracks =>
      rw [hgm] at h
      simp only [] at h
      by_cases hlen : mix_tracks.length < MIN_TRACK_MIX_LENGTH
      · rw [if_pos hlen] at h; simp at h
      · rw [if_neg hlen] at h
        cases hd : get_mix_description mix_tracks pa.artisthash with
        | error e => rw [hd] at h; simp at h
        | ok d =>
          rw [hd] at h
          simp only [Except.ok.injEq, Option.some.injEq] at h
          exact ⟨a, mix_tracks, rfl, rfl, hlen, by rw [← h], by rw [← h], by rw [← h]⟩

theorem windowLoop_created_le (env : Env) (limit : Nat) :
    ∀ (arts : List PeriodArtist) (mixes : List Mix) (indexed : List String)
      (created : Nat), created ≤ limit →
      ∀ m i c, windowLoop env limit arts (mixes, indexed, created) = .ok (m, i, c) →
        c ≤ limit := by
  intro arts
  induction arts with
  | nil =>
    intro mixes indexed created hc m i c h
    simp only [windowLoop] at h
    cases h
    exact hc
  | cons a rest ih =>
    intro mixes indexed created hc m i c h
    simp only [windowLoop] at h
    by_cases hfull : limit ≤ created
    · rw [if_pos hfull] at h
      cases h
      exact hc
    · rw [if_neg hfull] at h
      by_cases hidx : a.artisthash ∈ indexed
      · rw [if_pos hidx] at h
        exact ih mixes indexed created hc m i c h
      · rw [if_neg hidx] at h
        cases hcr : create_artist_mix env a with
        | error e => rw [hcr] at h; simp at h
        | ok om =>
          rw [hcr] at h
          cases om with
          | none => exact ih _ _ _ hc _ _ _ h
          | some mm => exact ih _ _ _ (by omega) _ _ _ h

theorem windowLoop_nodup (env : Env) (limit : Nat) :
    ∀ (arts : List PeriodArtist) (mixes : List Mix) (indexed : List String)
      (created : Nat),
      mixes.map (fun x => x.extra_artisthash) = indexed → indexed.Nodup →
      ∀ m i c, windowLoop env limit arts (mixes, indexed, created) = .ok (m, i, c) →
        m.map (fun x => x.extra_artisthash) = i ∧ i.Nodup := by
  intro arts
  induction arts with
  | nil =>
    intro mixes indexed created h1 h2 m i c h
    simp only [windowLoop] at h
    cases h
    exact ⟨h1, h2⟩
  | cons a rest ih =>
    intro mixes indexed created h1 h2 m i c h
    simp only [windowLoop] at h
    by_cases hfull : limit ≤ created
    · rw [if_pos hfull] at h
      cases h
      exact ⟨h1, h2⟩
    · rw [if_neg hfull] at h
      by_cases hidx : a.artisthash ∈ indexed
      · rw [if_pos hidx] at h
        exact ih _ _ _ h1 h2 _ _ _ h
      · rw [if_neg hidx] at h
        cases hcr : create_artist_mix env a with
        | error e => rw [hcr] at h; simp at h
        | ok om =>
          rw [hcr] at h
          cases om with
          | none => exact ih _ _ _ h1 h2 _ _ _ h
          | some mm =>
            obtain ⟨_, _, _, _, _, hhash, _, _⟩ := create_artist_mix_ok env a mm hcr
            refine ih _ _ _ ?_ ?_ _ _ _ h
            · rw [List.map_append, h1]
              simp [hhash]
            · rw [List.nodup_append]
              refine ⟨h2, List.nodup_singleton _, ?_⟩
              intro x hx hxa
              rw [List.mem_singleton.mp hxa] at hx
              exact hidx hx

theorem periodsLoop_cons (env : Env) (cap : Nat) (candidates : List PeriodArtist)
    (rest : List (Nat × List PeriodArtist)) (previous : Option (Nat × Nat))
    (mixes : List Mix) (indexed : List String) (fm : List Mix) (counts : List Nat)
    (h : periodsLoop env ((cap, candidates) :: rest) previous mixes indexed
      = .ok (fm, counts)) :
    ∃ mixes2 indexed2 created counts2,
      windowLoop env (effectiveLimit cap previous) candidates (mixes, indexed, 0)
        = .ok (mixes2, indexed2, created) ∧
      periodsLoop env rest (some (cap, created)) mixes2 indexed2 = .ok (fm, counts2) ∧
      counts = created :: counts2 := by
  simp only [periodsLoop] at h
  cases hw : windowLoop env (effectiveLimit cap previous) candidates (mixes, indexed, 0) with
  | error e => rw [hw] at h; simp at h
  | ok st =>
    obtain ⟨mixes2, indexed2, created⟩ := st
    rw [hw] at h
    simp only [] at h
    cases hp : periodsLoop env rest (some (cap, created)) mixes2 indexed2 with
    | error e => rw [hp] at h; simp at h
    | ok r =>
      obtain ⟨fm2, counts2⟩ := r
      rw [hp] at h
      simp only [Except.ok.injEq, Prod.mk.injEq] at h
      obtain ⟨rfl, rfl⟩ := h
      exact ⟨mixes2, indexed2, created, counts2, rfl, hp, rfl⟩

theorem effectiveLimit_some (cap pmax pcreated : Nat) :
    effectiveLimit cap (some (pmax, pcreated)) = cap + (pmax - pcreated) := by
  show cap + (if pcreated < pmax then pmax - pcreated else 0) = cap + (pmax - pcreated)
  split <;> omega

theorem effectiveLimit_none (cap : Nat) : effectiveLimit cap none = cap := rfl

/-! The claim theorems. -/

/-- C1 (counterexample): a generation run on `cexEnv` produces the Mix
`cexMix`, whose tracklist carries the weak hash `wdup` twice: the fallback
sampler removed from the candidate pool only the remote-derived weak hashes,
not its own earlier picks, so the two album-phase picks duplicate a weak
hash and the produced Mix violates the claimed no-duplicate invariant. -/
theorem C1_counterexample :
    runMixes cexEnv = [cexMix] ∧
    ¬ (cexMix.tracks.map (weakhashOf cexEnv)).Nodup :=
  ⟨rfl, by decide⟩

/-- C1 (amended): every Mix produced has at least `MIN_TRACK_MIX_LENGTH`
tracks (a shorter candidate yields no Mix), and the fallback-appended tracks
never share a weak hash with the remote-derived portion; duplicate weak
hashes between two fallback picks are possible, as the counterexample shows. -/
theorem C1_min_length_and_fallback_disjoint :
    (∀ (env : Env) (artist : PeriodArtist) (m : Mix),
      create_artist_mix env artist = .ok (some m) →
      MIN_TRACK_MIX_LENGTH ≤ m.tracks.length) ∧
    (∀ (env : Env) (a0 : ArtistRef) (similar_albums similar_artists trackhashes : List String),
      (∀ l, l ≠ [] → env.choose l ∈ l) →
      ∀ t ∈ fallback_create_artist_mix env a0 similar_albums similar_artists
          ((remotePortion env trackhashes).map (fun u => u.weakhash))
          (TRACK_MIX_LENGTH - (remotePortion env trackhashes).length),
        t.weakhash ∉ (remotePortion env trackhashes).map (fun u => u.weakhash)) := by
  constructor
  · intro env artist m h
    obtain ⟨a, mix_tracks, _, _, hlen, _, htr, _⟩ := create_artist_mix_ok env artist m h
    rw [htr, List.length_map]
    omega
  · intro env a0 similar_albums similar_artists trackhashes hchoose
    exact (fallback_inv env hchoose a0 similar_albums similar_artists _ _).2

/-- C1 (amended, witness): the amended claim instantiated on the concrete
scenario environment. -/
theorem C1_min_length_witness :
    MIN_TRACK_MIX_LENGTH ≤ cexMix.tracks.length ∧
    ∀ t ∈ fallback_create_artist_mix cexEnv cexOther ["walb1", "walb2"] []
        ((remotePortion cexEnv cexHashes).map (fun u => u.weakhash))
        (TRACK_MIX_LENGTH - (remotePortion cexEnv cexHashes).length),
      t.weakhash ∉ (remotePortion cexEnv cexHashes).map (fun u => u.weakhash) :=
  ⟨C1_min_length_and_fallback_disjoint.1 cexEnv cexTodayArtist cexMix (by rfl),
   C1_min_length_and_fallback_disjoint.2 cexEnv cexOther ["walb1", "walb2"] [] cexHashes
     (fun l hl => headChoose_mem l hl)⟩

/-- C2: in every run that completes, the four windows report counts
`[c0, c1, c2, c3]` with each count bounded by the window's base cap plus the
unused capacity of the immediately preceding window only (computed from the
predecessor's base cap, never transitively), and the produced mixes carry
pairwise distinct subject artist hashes, so an artist gets at most one Mix
per run. -/
theorem C2_quota_allocator (env : Env) (mixes : List Mix) (counts : List Nat)
    (h : create_artist_mixes env = .ok (mixes, counts)) :
    (∃ c0 c1 c2 c3, counts = [c0, c1, c2, c3] ∧
      c0 ≤ 3 ∧ c1 ≤ 2 + (3 - c0) ∧ c2 ≤ 3 + (2 - c1) ∧ c3 ≤ 2 + (3 - c2)) ∧
    (mixes.map (fun m => m.extra_artisthash)).Nodup := by
  unfold create_artist_mixes runPeriods at h
  obtain ⟨m1, i1, c0, cs1, hw0, hp1, hceq1⟩ :=
    periodsLoop_cons _ _ _ _ _ _ _ _ _ h
  obtain ⟨m2, i2, c1, cs2, hw1, hp2, hceq2⟩ :=
    periodsLoop_cons _ _ _ _ _ _ _ _ _ hp1
  obtain ⟨m3, i3, c2, cs3, hw2, hp3, hceq3⟩ :=
    periodsLoop_cons _ _ _ _ _ _ _ _ _ hp2
  obtain ⟨m4, i4, c3, cs4, hw3, hp4, hceq4⟩ :=
    periodsLoop_cons _ _ _ _ _ _ _ _ _ hp3
  have hfin : mixes = m4 ∧ cs4 = [] := by
    simp only [periodsLoop, Except.ok.injEq, Prod.mk.injEq] at hp4
    exact ⟨hp4.1.symm, hp4.2.symm⟩
  obtain ⟨rfl, rfl⟩ := hfin
  constructor
  · refine ⟨c0, c1, c2, c3, by rw [hceq1, hceq2, hceq3, hceq4], ?_, ?_, ?_, ?_⟩
    · have := windowLoop_created_le env _ _ _ _ _ (Nat.zero_le _) _ _ _ hw0
      rwa [effectiveLimit_none] at this
    · have := windowLoop_created_le env _ _ _ _ _ (Nat.zero_le _) _ _ _ hw1
      rwa [effectiveLimit_some] at this
    · have := windowLoop_created_le env _ _ _ _ _ (Nat.zero_le _) _ _ _ hw2
      rwa [effectiveLimit_some] at this
    · have := windowLoop_created_le env _ _ _ _ _ (Nat.zero_le _) _ _ _ hw3
      rwa [effectiveLimit_some] at this
  · have s0 := windowLoop_nodup env _ _ _ _ _ (by simp) List.nodup_nil _ _ _ hw0
    have s1 := windowLoop_nodup env _ _ _ _ _ s0.1 s0.2 _ _ _ hw1
    have s2 := windowLoop_nodup env _ _ _ _ _ s1.1 s1.2 _ _ _ hw2
    have s3 := windowLoop_nodup env _ _ _ _ _ s2.1 s2.2 _ _ _ hw3
    rw [s3.1]
    exact s3.2

/-- C2 (witness): the bound instantiated on the empty environment, where the
run completes with no mixes and counts `[0, 0, 0, 0]`. -/
theorem C2_quota_allocator_witness :
    (∃ c0 c1 c2 c3, ([0, 0, 0, 0] : List Nat) = [c0, c1, c2, c3] ∧
      c0 ≤ 3 ∧ c1 ≤ 2 + (3 - c0) ∧ c2 ≤ 3 + (2 - c1) ∧ c3 ≤ 2 + (3 - c2)) ∧
    (([] : List Mix).map (fun m => m.extra_artisthash)).Nodup :=
  C2_quota_allocator emptyEnv [] [0, 0, 0, 0] rfl

/-- C3 (counterexample): on a remote response that decodes but lacks the
expected "tracks" key, `get_track_mix` does not return the empty list: the
`results["tracks"]` subscript raises a `KeyError` to the caller. -/
theorem C3_counterexample :
    get_track_mix c3Env [] false = .error (.keyError "tracks") := rfl

/-- C3 (amended): `get_track_mix` returns `[]` on connection failure and on
an undecodable response, but a decodable response of unexpected shape
(missing the "tracks" key) raises a `KeyError` to the caller. -/
theorem C3_degradation (env : Env) (tracks : List Track) (with_help : Bool) :
    (env.radio (buildQueries tracks with_help) = .connError →
      get_track_mix env tracks with_help = .ok []) ∧
    (env.radio (buildQueries tracks with_help) = .decodeError →
      get_track_mix env tracks with_help = .ok []) ∧
    (∀ p, env.radio (buildQueries tracks with_help) = .payload p → p.tracks = none →
      get_track_mix env tracks with_help = .error (.keyError "tracks")) := by
  refine ⟨?_, ?_, ?_⟩
  · intro h
    unfold get_track_mix
    rw [h]
  · intro h
    unfold get_track_mix
    rw [h]
  · intro p h hp
    unfold get_track_mix
    rw [h]
    simp only []
    rw [hp]

/-- C3 (amended, witness): the degradation behavior at the empty environment
(connection failure) discharged concretely. -/
theorem C3_degradation_witness : get_track_mix emptyEnv [] false = .ok [] :=
  (C3_degradation emptyEnv [] false).1 rfl

/-- C4 (counterexample): with 55 unique weak hashes all resolvable locally,
the mix assembled by `get_track_mix` has 55 tracks, not exactly 50: no code
path caps the result at `TRACK_MIX_LENGTH`, which only gates whether the
fallback filler runs. -/
theorem C4_counterexample :
    (okTracks (get_track_mix (c4Env id) c4Seed false)).length = 55 ∧
    (55 : Nat) ≠ TRACK_MIX_LENGTH :=
  ⟨rfl, by decide⟩

/-- C4 (amended): in the 55-unique-resolvable-weak-hashes scenario, for any
balancing function that is a pure reordering (the spec's contract for
`balance_mix`), the assembled mix has exactly 55 tracks and no duplicate
weak hashes. -/
theorem C4_no_cap (balance : List Track → List Track)
    (hperm : ∀ l, (balance l).Perm l) :
    get_track_mix (c4Env balance) c4Seed false = .ok (balance c4Resolved) ∧
    (balance c4Resolved).length = 55 ∧
    ((balance c4Resolved).map (fun t => t.weakhash)).Nodup := by
  refine ⟨rfl, ?_, ?_⟩
  · rw [(hperm c4Resolved).length_eq]
    rfl
  · exact ((hperm c4Resolved).map (fun t => t.weakhash)).nodup_iff.mpr (by decide)

/-- C4 (amended, witness): the scenario discharged with the identity
reordering as the balancing function. -/
theorem C4_no_cap_witness :
    get_track_mix (c4Env id) c4Seed false = .ok (id c4Resolved) ∧
    (id c4Resolved).length = 55 ∧
    ((id c4Resolved).map (fun t => t.weakhash)).Nodup :=
  C4_no_cap id (fun l => List.Perm.refl l)

/-- C7: for any omit set and limit, the fallback sampler returns at most
`limit` tracks and never a track whose weak hash is in the omit set (for any
sampler that picks from the candidate list, as `random.sample` does). -/
theorem C7_fallback_sampler (env : Env)
    (hchoose : ∀ l, l ≠ [] → env.choose l ∈ l)
    (artist : ArtistRef) (similar_albums similar_artists omit_trackhashes : List String)
    (limit : Nat) :
    (fallback_create_artist_mix env artist similar_albums similar_artists
        omit_trackhashes limit).length ≤ limit ∧
    ∀ t ∈ fallback_create_artist_mix env artist similar_albums similar_artists
        omit_trackhashes limit, t.weakhash ∉ omit_trackhashes :=
  fallback_inv env hchoose artist similar_albums similar_artists omit_trackhashes limit

/-- C7 (witness): the sampler bound instantiated on the concrete scenario
environment with omit set `["wdup"]` and limit 1. -/
theorem C7_fallback_sampler_witness :
    (fallback_create_artist_mix cexEnv cexOther ["walb1", "walb2"] []
        ["wdup"] 1).length ≤ 1 ∧
    ∀ t ∈ fallback_create_artist_mix cexEnv cexOther ["walb1", "walb2"] []
        ["wdup"] 1, t.weakhash ∉ ["wdup"] :=
  C7_fallback_sampler cexEnv (fun l hl => headChoose_mem l hl) cexOther
    ["walb1", "walb2"] [] ["wdup"] 1

/-- C9 (counterexample): the artist-image request is issued with no timeout
argument, so it is not true that every outbound HTTP call of the artwork
pipeline uses a bounded timeout. -/
theorem C9_counterexample :
    (downloadArtistImageCall "https://smcloud.mungaist.com" "Adele").timeout = none :=
  rfl

/-- C9 (amended): `download_artist_image` returns no update on connection
failure and on any non-200 response, and in that case the caller keeps the
artist's stored image and color in the Mix's image field; however its HTTP
request carries no timeout, while the ping and radio requests use 10s. -/
theorem C9_artwork_degradation :
    (∀ (env : Env) (a : Artist), env.imageFetch a = .connError →
      download_artist_image env a = none) ∧
    (∀ (env : Env) (a : Artist) (status : Nat) (colors : List String),
      env.imageFetch a = .response status colors → status ≠ 200 →
      download_artist_image env a = none) ∧
    (∀ (env : Env) (pa : PeriodArtist) (a : Artist) (m : Mix),
      get_artist_by_hash env pa.artisthash = some a →
      download_artist_image env a = none →
      create_artist_mix env pa = .ok (some m) →
      m.extra_image = { image := a.image, color := a.color }) ∧
    (∀ server name, (downloadArtistImageCall server name).timeout = none) ∧
    (∀ server, (pingServerCall server).timeout = some 10 ∧
      (radioCall server).timeout = some 10) := by
  refine ⟨?_, ?_, ?_, ?_, ?_⟩
  · intro env a h
    unfold download_artist_image
    rw [h]
  · intro env a status colors h hs
    unfold download_artist_image
    rw [h]
    simp [hs]
  · intro env pa a m hget hdl h
    obtain ⟨a2, mix_tracks, hget2, _, _, _, _, himg⟩ := create_artist_mix_ok env pa m h
    rw [hget] at hget2
    obtain rfl : a = a2 := by injection hget2
    rw [himg, hdl]
  · intro server name
    rfl
  · intro server
    exact ⟨rfl, rfl⟩

/-- C9 (amended, witness): the degradation and default-artwork behavior
discharged on the concrete scenario environment (whose image fetch fails),
together with the concrete timeouts. -/
theorem C9_artwork_degradation_witness :
    download_artist_image cexEnv ⟨"ah0", "Art0", "img0", "col0"⟩ = none ∧
    cexMix.extra_image = { image := "img0", color := "col0" } ∧
    (downloadArtistImageCall "https://smcloud.mungaist.com" "Cher").timeout = none :=
  ⟨C9_artwork_degradation.1 cexEnv ⟨"ah0", "Art0", "img0", "col0"⟩ rfl,
   C9_artwork_degradation.2.2.1 cexEnv cexTodayArtist ⟨"ah0", "Art0", "img0", "col0"⟩
     cexMix rfl rfl (by rfl),
   C9_artwork_degradation.2.2.2.1 "https://smcloud.mungaist.com" "Cher"⟩

/-- C10: for an artisthash absent from the artist store, `get_artist_mix`
raises a `KeyError` (the `artistmap[...]` lookup is unguarded), while
`create_artist_mix` resolves the artist first and silently yields no Mix, so
the unguarded lookup is unreachable through `create_artist_mix`. -/
theorem C10_unguarded_lookup (env : Env) (pa : PeriodArtist)
    (habsent : ∀ e ∈ env.artistmap, e.artist.artisthash ≠ pa.artisthash) :
    get_artist_mix env pa.artisthash = .error (.keyError pa.artisthash) ∧
    create_artist_mix env pa = .ok none := by
  have hfind : env.artistmap.find? (fun e => e.artist.artisthash == pa.artisthash)
      = none := by
    rw [List.find?_eq_none]
    intro e he
    simpa using habsent e he
  constructor
  · unfold get_artist_mix
    rw [hfind]
  · unfold create_artist_mix get_artist_by_hash
    rw [hfind]
    rfl

/-- C10 (witness): the lookup contrast discharged at an artist absent from
the empty store. -/
theorem C10_unguarded_lookup_witness :
    get_artist_mix emptyEnv "missing" = .error (.keyError "missing") ∧
    create_artist_mix emptyEnv ⟨"missing", "Missing"⟩ = .ok none :=
  C10_unguarded_lookup emptyEnv ⟨"missing", "Missing"⟩ (by simp [emptyEnv])

theorem groupInsert_inv (processed : List Track) (acc : List (String × List Track))
    (t : Track) (hinv : GroupInv processed acc) :
    GroupInv (processed ++ [t]) (groupInsert acc t) := by
  obtain ⟨hkeys, hgroups, hcover, hfull⟩ := hinv
  unfold groupInsert
  by_cases hany : acc.any (fun p => p.1 == t.weakhash) = true
  · rw [if_pos hany]
    have hkey : t.weakhash ∈ acc.map Prod.fst := by
      rw [List.any_eq_true] at hany
      obtain ⟨p, hp, hpt⟩ := hany
      exact List.mem_map.mpr ⟨p, hp, beq_iff_eq.mp hpt⟩
    have hfst : ∀ p : String × List Track,
        ((if p.1 == t.weakhash then (p.1, p.2 ++ [t]) else p) : String × List Track).1
          = p.1 := by
      intro p
      split <;> rfl
    have hkeys2 : ((acc.map (fun p =>
        if p.1 == t.weakhash then (p.1, p.2 ++ [t]) else p)).map Prod.fst)
        = acc.map Prod.fst := by
      rw [List.map_map]
      exact List.map_congr_left (fun p _ => hfst p)
    refine ⟨?_, ?_, ?_, ?_⟩
    · rw [hkeys2]
      exact hkeys
    · intro q hq
      obtain ⟨p, hp, rfl⟩ := List.mem_map.mp hq
      obtain ⟨hne, hmem⟩ := hgroups p hp
      by_cases hb : (p.1 == t.weakhash) = true
      · rw [if_pos hb]
        refine ⟨by simp, ?_⟩
        intro u hu
        rcases List.mem_append.mp hu with hu | hu
        · exact ⟨List.mem_append_left _ (hmem u hu).1, (hmem u hu).2⟩
        · rw [List.mem_singleton.mp hu]
          exact ⟨List.mem_append_right _ (List.mem_singleton_self t),
            (beq_iff_eq.mp hb).symm⟩
      · rw [if_neg hb]
        exact ⟨hne, fun u hu => ⟨List.mem_append_left _ (hmem u hu).1, (hmem u hu).2⟩⟩
    · intro u hu
      rw [hkeys2]
      rcases List.mem_append.mp hu with hu | hu
      · exact hcover u hu
      · rw [List.mem_singleton.mp hu]
        exact hkey
    · intro u hu q hq huq
      obtain ⟨p, hp, rfl⟩ := List.mem_map.mp hq
      by_cases hb : (p.1 == t.weakhash) = true
      · rw [if_pos hb] at huq ⊢
        rcases List.mem_append.mp hu with hu | hu
        · exact List.mem_append_left _ (hfull u hu p hp huq)
        · rw [List.mem_singleton.mp hu]
          exact List.mem_append_right _ (List.mem_singleton_self t)
      · rw [if_neg hb] at huq ⊢
        rcases List.mem_append.mp hu with hu | hu
        · exact hfull u hu p hp huq
        · rw [List.mem_singleton.mp hu] at huq
          exact absurd (beq_iff_eq.mpr huq.symm) hb
  · rw [if_neg hany]
    have hnotkey : t.weakhash ∉ acc.map Prod.fst := by
      intro hmem
      obtain ⟨p, hp, hpe⟩ := List.mem_map.mp hmem
      exact hany (List.any_eq_true.mpr ⟨p, hp, beq_iff_eq.mpr hpe⟩)
    refine ⟨?_, ?_, ?_, ?_⟩
    · rw [List.map_append, List.nodup_append]
      refine ⟨hkeys, by simp, ?_⟩
      intro x hx hx2
      simp only [List.map_cons, List.map_nil, List.mem_singleton] at hx2
      rw [hx2] at hx
      exact hnotkey hx
    · intro p hp
      rcases List.mem_append.mp hp with hp | hp
      · obtain ⟨hne, hmem⟩ := hgroups p hp
        exact ⟨hne, fun u hu => ⟨List.mem_append_left _ (hmem u hu).1, (hmem u hu).2⟩⟩
      · rw [List.mem_singleton.mp hp]
        refine ⟨by simp, ?_⟩
        intro u hu
        rw [List.mem_singleton.mp hu]
        exact ⟨List.mem_append_right _ (List.mem_singleton_self t), rfl⟩
    · intro u hu
      rw [List.map_append]
      rcases List.mem_append.mp hu with hu | hu
      · exact List.mem_append_left _ (hcover u hu)
      · rw [List.mem_singleton.mp hu]
        exact List.mem_append_right _ (by simp)
    · intro u hu q hq huq
      rcases List.mem_append.mp hq with hq | hq
      · rcases List.mem_append.mp hu with hu | hu
        · exact hfull u hu q hq huq
        · rw [List.mem_singleton.mp hu] at huq
          exact absurd (List.mem_map.mpr ⟨q, hq, huq.symm⟩) hnotkey
      · rw [List.mem_singleton.mp hq] at huq ⊢
        have huq2 : u.weakhash = t.weakhash := huq
        rcases List.mem_append.mp hu with hu | hu
        · exact absurd (huq2 ▸ hcover u hu) hnotkey
        · exact hu

theorem foldl_groupInsert_inv :
    ∀ (ts processed : List Track) (acc : List (String × List Track)),
      GroupInv processed acc →
      GroupInv (processed ++ ts) (ts.foldl groupInsert acc)
  | [], processed, acc, h => by simpa using h
  | t :: ts, processed, acc, h => by
    simp only [List.foldl_cons]
    have h3 := foldl_groupInsert_inv ts (processed ++ [t]) (groupInsert acc t)
      (groupInsert_inv processed acc t h)
    rwa [List.append_assoc, List.singleton_append] at h3

theorem groupByWeakhash_inv (ts : List Track) : GroupInv ts (groupByWeakhash ts) := by
  have h0 : GroupInv [] [] := ⟨List.nodup_nil, by simp, by simp, by simp⟩
  have h := foldl_groupInsert_inv ts [] [] h0
  simpa [groupByWeakhash] using h

theorem foldl_pyMax_spec (f : Track → Nat) :
    ∀ (xs : List Track) (x : Track),
      (xs.foldl (fun best t => if f best < f t then t else best) x = x ∨
        xs.foldl (fun best t => if f best < f t then t else best) x ∈ xs) ∧
      f x ≤ f (xs.foldl (fun best t => if f best < f t then t else best) x) ∧
      ∀ s ∈ xs, f s ≤ f (xs.foldl (fun best t => if f best < f t then t else best) x)
  | [], x => ⟨Or.inl rfl, Nat.le_refl _, by simp⟩
  | y :: ys, x => by
    simp only [List.foldl_cons]
    obtain ⟨hmem, hx, hall⟩ := foldl_pyMax_spec f ys (if f x < f y then y else x)
    refine ⟨?_, ?_, ?_⟩
    · rcases hmem with h | h
      · rw [h]
        split
        · exact Or.inr (List.mem_cons_self _ _)
        · exact Or.inl rfl
      · exact Or.inr (List.mem_cons_of_mem _ h)
    · refine Nat.le_trans ?_ hx
      split
      · next hlt => exact Nat.le_of_lt hlt
      · exact Nat.le_refl _
    · intro s hs
      rcases List.mem_cons.mp hs with rfl | hs
      · refine Nat.le_trans ?_ hx
        split
        · exact Nat.le_refl _
        · next hlt => exact Nat.le_of_not_lt hlt
      · exact hall s hs

theorem pyMax_spec (f : Track → Nat) (l : List Track) (hl : l ≠ []) :
    ∃ u, pyMax f l = some u ∧ u ∈ l ∧ ∀ s ∈ l, f s ≤ f u := by
  cases l with
  | nil => exact absurd rfl hl
  | cons x xs =>
    obtain ⟨hmem, hx, hall⟩ := foldl_pyMax_spec f xs x
    refine ⟨_, rfl, ?_, ?_⟩
    · rcases hmem with h | h
      · rw [h]
        exact List.mem_cons_self _ _
      · exact List.mem_cons_of_mem _ h
    · intro s hs
      rcases List.mem_cons.mp hs with rfl | hs
      · exact hx
      · exact hall s hs

theorem filterMap_pyMax_keys (f : Track → Nat) :
    ∀ (gs : List (String × List Track)),
      (∀ p ∈ gs, p.2 ≠ [] ∧ ∀ t ∈ p.2, t.weakhash = p.1) →
      (gs.filterMap (fun p => pyMax f p.2)).map (fun u => u.weakhash)
        = gs.map Prod.fst
  | [], _ => rfl
  | (w, g) :: gs, h => by
    obtain ⟨hne, hmem⟩ := h (w, g) (List.mem_cons_self _ _)
    obtain ⟨u, hu, humem, _⟩ := pyMax_spec f g hne
    have hcons : List.filterMap (fun p : String × List Track => pyMax f p.2)
        ((w, g) :: gs)
        = u :: List.filterMap (fun p : String × List Track => pyMax f p.2) gs :=
      List.filterMap_cons_some hu
    rw [hcons, List.map_cons,
      filterMap_pyMax_keys f gs (fun p hp => h p (List.mem_cons_of_mem _ hp)),
      List.map_cons, hmem u humem]

theorem dedup_keys (ts : List Track) :
    (dedupByWeakhash ts).map (fun u => u.weakhash)
      = (groupByWeakhash ts).map Prod.fst := by
  obtain ⟨_, hgroups, _, _⟩ := groupByWeakhash_inv ts
  exact filterMap_pyMax_keys _ _
    (fun p hp => ⟨(hgroups p hp).1, fun t ht => ((hgroups p hp).2 t ht).2⟩)

theorem dedup_nodup_keys (ts : List Track) :
    ((dedupByWeakhash ts).map (fun u => u.weakhash)).Nodup := by
  rw [dedup_keys]
  exact (groupByWeakhash_inv ts).1

theorem dedup_mem (ts : List Track) (u : Track) (hu : u ∈ dedupByWeakhash ts) :
    u ∈ ts ∧ ∀ s ∈ ts, s.weakhash = u.weakhash → s.bitrate ≤ u.bitrate := by
  obtain ⟨hkeys, hgroups, hcover, hfull⟩ := groupByWeakhash_inv ts
  obtain ⟨p, hp, hpu⟩ := List.mem_filterMap.mp hu
  obtain ⟨hne, hmem⟩ := hgroups p hp
  obtain ⟨v, hv, hvmem, hvmax⟩ := pyMax_spec (fun t => t.bitrate) p.2 hne
  rw [hv] at hpu
  have hvu : v = u := Option.some.inj hpu
  rw [← hvu]
  refine ⟨(hmem v hvmem).1, ?_⟩
  intro s hs hsw
  have hsw2 : s.weakhash = p.1 := by rw [hsw, (hmem v hvmem).2]
  exact hvmax s (hfull s hs p hp hsw2)

theorem dedup_cover (ts : List Track) (t : Track) (ht : t ∈ ts) :
    ∃ u ∈ dedupByWeakhash ts, u.weakhash = t.weakhash := by
  obtain ⟨hkeys, hgroups, hcover, hfull⟩ := groupByWeakhash_inv ts
  obtain ⟨p, hp, hpe⟩ := List.mem_map.mp (hcover t ht)
  obtain ⟨hne, hmem⟩ := hgroups p hp
  obtain ⟨u, hu, humem, _⟩ := pyMax_spec (fun x => x.bitrate) p.2 hne
  refine ⟨u, List.mem_filterMap.mpr ⟨p, hp, hu⟩, ?_⟩
  rw [(hmem u humem).2, hpe]

/-- C5: deduplication keeps exactly one representative per weak-hash group
(distinct weak hashes in the output, every input weak hash covered), and the
kept representative is an input track of maximal bitrate within its group. -/
theorem C5_dedup_max_bitrate (ts : List Track) :
    ((dedupByWeakhash ts).map (fun u => u.weakhash)).Nodup ∧
    (∀ t ∈ ts, ∃ u ∈ dedupByWeakhash ts, u.weakhash = t.weakhash) ∧
    (∀ u ∈ dedupByWeakhash ts,
      u ∈ ts ∧ ∀ s ∈ ts, s.weakhash = u.weakhash → s.bitrate ≤ u.bitrate) :=
  ⟨dedup_nodup_keys ts, fun t ht => dedup_cover ts t ht,
    fun u hu => dedup_mem ts u hu⟩

/-- C5 (witness): the dedup contract instantiated on a concrete two-element
group sharing the weak hash `wdup`. -/
theorem C5_dedup_max_bitrate_witness :
    ((dedupByWeakhash [cexTa, cexTb]).map (fun u => u.weakhash)).Nodup ∧
    (∀ t ∈ [cexTa, cexTb], ∃ u ∈ dedupByWeakhash [cexTa, cexTb],
      u.weakhash = t.weakhash) ∧
    (∀ u ∈ dedupByWeakhash [cexTa, cexTb],
      u ∈ [cexTa, cexTb] ∧ ∀ s ∈ [cexTa, cexTb],
        s.weakhash = u.weakhash → s.bitrate ≤ u.bitrate) :=
  C5_dedup_max_bitrate [cexTa, cexTb]

/-- C6: the remote-derived portion is a permutation of the deduplicated
local matches ordered by position of each track's weak hash in the remote
response list: sorted (weakly, and strictly since weak hashes are distinct)
by index-of in the response, not by repository order. -/
theorem C6_remote_order (env : Env) (trackhashes : List String)
    (hne : trackhashes ≠ []) :
    (remotePortion env trackhashes).Perm
      (dedupByWeakhash (env.flatTracks.filter
        (fun t => decide (t.weakhash ∈ trackhashes)))) ∧
    (remotePortion env trackhashes).Pairwise
      (fun a b => trackhashes.indexOf a.weakhash ≤ trackhashes.indexOf b.weakhash) ∧
    (remotePortion env trackhashes).Pairwise
      (fun a b => trackhashes.indexOf a.weakhash < trackhashes.indexOf b.weakhash) := by
  have hperm : (remotePortion env trackhashes).Perm
      (dedupByWeakhash (env.flatTracks.filter
        (fun t => decide (t.weakhash ∈ trackhashes)))) :=
    List.perm_insertionSort _ _
  have hpair : (remotePortion env trackhashes).Pairwise
      (fun a b => trackhashes.indexOf a.weakhash ≤ trackhashes.indexOf b.weakhash) := by
    haveI : IsTotal Track
        (fun a b => trackhashes.indexOf a.weakhash ≤ trackhashes.indexOf b.weakhash) :=
      ⟨fun a b => Nat.le_total _ _⟩
    haveI : IsTrans Track
        (fun a b => trackhashes.indexOf a.weakhash ≤ trackhashes.indexOf b.weakhash) :=
      ⟨fun a b c hab hbc => Nat.le_trans hab hbc⟩
    exact List.sorted_insertionSort _ _
  have hmemhash : ∀ u ∈ remotePortion env trackhashes, u.weakhash ∈ trackhashes := by
    intro u hu
    have hu2 := (dedup_mem _ u (hperm.mem_iff.mp hu)).1
    exact of_decide_eq_true (List.mem_filter.mp hu2).2
  have hnodup : ((remotePortion env trackhashes).map (fun u => u.weakhash)).Nodup :=
    (List.Perm.nodup_iff (hperm.map (fun u => u.weakhash))).mpr (dedup_nodup_keys _)
  have hneq : (remotePortion env trackhashes).Pairwise
      (fun a b => a.weakhash ≠ b.weakhash) := List.pairwise_map.mp hnodup
  refine ⟨hperm, hpair, ?_⟩
  refine (hpair.and hneq).imp_of_mem ?_
  intro a b ha hb hr
  refine Nat.lt_of_le_of_ne hr.1 ?_
  intro hidx
  exact hr.2 ((List.indexOf_inj (hmemhash a ha) (hmemhash b hb)).mp hidx)

theorem dedupArtistsBy_cons (seen : List String) (a : ArtistRef) (as : List ArtistRef) :
    dedupArtistsBy seen (a :: as) =
      if a.artisthash ∈ seen then dedupArtistsBy seen as
      else a :: dedupArtistsBy (seen ++ [a.artisthash]) as := rfl

theorem dedupArtistsBy_congr :
    ∀ (as : List ArtistRef) (seen1 seen2 : List String),
      (∀ x, x ∈ seen1 ↔ x ∈ seen2) →
      dedupArtistsBy seen1 as = dedupArtistsBy seen2 as
  | [], _, _, _ => rfl
  | a :: as, seen1, seen2, h => by
    unfold dedupArtistsBy
    by_cases hm : a.artisthash ∈ seen1
    · rw [if_pos hm, if_pos ((h _).mp hm)]
      exact dedupArtistsBy_congr as seen1 seen2 h
    · rw [if_neg hm, if_neg (fun hx => hm ((h _).mpr hx))]
      have h2 : ∀ x, x ∈ seen1 ++ [a.artisthash] ↔ x ∈ seen2 ++ [a.artisthash] := by
        intro x
        simp only [List.mem_append, List.mem_singleton, h x]
      rw [dedupArtistsBy_congr as _ _ h2]

theorem descLoop_spec (subject : String) :
    ∀ (tracks : List Track) (acc : List ArtistRef),
      (∀ t ∈ tracks, t.artists ≠ []) → acc.length ≤ 4 →
      descLoop subject tracks acc = .ok (acc ++
        (dedupArtistsBy (acc.map (fun a => a.artisthash))
          ((primaryArtists tracks).filter
            (fun a => decide (a.artisthash ≠ subject)))).take (4 - acc.length))
  | [], acc, _, _ => by
    simp [descLoop, primaryArtists, dedupArtistsBy]
  | t :: ts, acc, hart, hlen => by
    obtain ⟨a0, arest, ha0⟩ :=
      List.exists_cons_of_ne_nil (hart t (List.mem_cons_self _ _))
    have hhead : t.artists.head? = some a0 := by rw [ha0]; rfl
    have hprim : primaryArtists (t :: ts) = a0 :: primaryArtists ts := by
      show List.filterMap (fun t => t.artists.head?) (t :: ts)
        = a0 :: List.filterMap (fun t => t.artists.head?) ts
      exact List.filterMap_cons_some hhead
    have hartrest : ∀ u ∈ ts, u.artists ≠ [] :=
      fun u hu => hart u (List.mem_cons_of_mem _ hu)
    unfold descLoop
    by_cases h4 : acc.length < 4
    · rw [if_pos h4, hhead]
      simp only []
      by_cases hcond : a0.artisthash ≠ subject ∧
          a0.artisthash ∉ acc.map (fun a => a.artisthash)
      · rw [if_pos hcond]
        rw [descLoop_spec subject ts (acc ++ [a0]) hartrest
          (by simp only [List.length_append, List.length_singleton]; omega)]
        have hfilter : (a0 :: primaryArtists ts).filter
            (fun a => decide (a.artisthash ≠ subject))
            = a0 :: (primaryArtists ts).filter (fun a => decide (a.artisthash ≠ subject)) :=
          List.filter_cons_of_pos (by exact decide_eq_true hcond.1)
        rw [hprim, hfilter]
        rw [dedupArtistsBy_cons, if_neg hcond.2]
        have hsub : 4 - acc.length = (4 - (acc ++ [a0]).length) + 1 := by
          simp only [List.length_append, List.length_singleton]
          omega
        rw [hsub, List.take_succ_cons]
        rw [List.map_append]
        simp
      · rw [if_neg hcond]
        rw [descLoop_spec subject ts acc hartrest hlen, hprim]
        by_cases hs : a0.artisthash ≠ subject
        · have hmem : a0.artisthash ∈ acc.map (fun a => a.artisthash) := by
            by_contra hmm
            exact hcond ⟨hs, hmm⟩
          have hfilter2 : (a0 :: primaryArtists ts).filter
              (fun a => decide (a.artisthash ≠ subject))
              = a0 :: (primaryArtists ts).filter (fun a => decide (a.artisthash ≠ subject)) :=
            List.filter_cons_of_pos (by exact decide_eq_true hs)
          rw [hfilter2, dedupArtistsBy_cons, if_pos hmem]
        · have hfilter : (a0 :: primaryArtists ts).filter
              (fun a => decide (a.artisthash ≠ subject))
              = (primaryArtists ts).filter (fun a => decide (a.artisthash ≠ subject)) :=
            List.filter_cons_of_neg (by simp only [decide_eq_true_eq]; exact hs)
          rw [hfilter]
    · rw [if_neg h4]
      rw [descLoop_spec subject ts acc hartrest hlen, hprim]
      have h44 : 4 - acc.length = 0 := by omega
      rw [h44]
      simp

theorem get_mix_description_ok (tracks : List Track) (h : String)
    (f4 : List ArtistRef) (hl : descLoop h tracks [] = .ok f4) :
    get_mix_description tracks h = formatDescription tracks f4 := by
  unfold get_mix_description
  rw [hl]

/-- C8: for every non-empty tracklist whose tracks carry at least one artist,
the computed description equals the spec's description: the first 4 distinct
non-subject artists in tracklist order, formatted with " and more" when 4
were found, as a plain comma list for 1 to 3, and falling back to the first
track's first artist name when none were found. -/
theorem C8_description (tracks : List Track) (subject : String)
    (hne : tracks ≠ []) (hart : ∀ t ∈ tracks, t.artists ≠ []) :
    get_mix_description tracks subject = .ok (specDescription tracks subject) := by
  have hloop := descLoop_spec subject tracks [] hart (by simp)
  simp only [List.map_nil, List.nil_append, List.length_nil, Nat.sub_zero] at hloop
  rw [get_mix_description_ok tracks subject _ hloop]
  unfold formatDescription specDescription specFeaturedArtists
  by_cases h4 : ((dedupArtistsBy [] ((primaryArtists tracks).filter
      (fun a => decide (a.artisthash ≠ subject)))).take 4).length = 4
  · rw [if_pos h4, if_pos h4]
  · rw [if_neg h4, if_neg h4]
    by_cases h0 : 0 < ((dedupArtistsBy [] ((primaryArtists tracks).filter
        (fun a => decide (a.artisthash ≠ subject)))).take 4).length
    · rw [if_pos h0, if_pos h0]
    · rw [if_neg h0, if_neg h0]
      obtain ⟨t0, ts0, rfl⟩ := List.exists_cons_of_ne_nil hne
      obtain ⟨a0, arest, ha0⟩ :=
        List.exists_cons_of_ne_nil (hart t0 (List.mem_cons_self _ _))
      simp [ha0]

/-- C8 (witness): the description refinement instantiated on a concrete
two-track tracklist whose primary co-artist differs from the subject. -/
theorem C8_description_witness :
    get_mix_description [cexTa, cexTb] "ah0"
      = .ok (specDescription [cexTa, cexTb] "ah0") :=
  C8_description [cexTa, cexTb] "ah0" (by decide) (by decide)

/-- C6 (witness): the ordering property instantiated on the concrete
scenario response. -/
theorem C6_remote_order_witness :
    (remotePortion cexEnv cexHashes).Perm
      (dedupByWeakhash (cexEnv.flatTracks.filter
        (fun t => decide (t.weakhash ∈ cexHashes)))) ∧
    (remotePortion cexEnv cexHashes).Pairwise
      (fun a b => cexHashes.indexOf a.weakhash ≤ cexHashes.indexOf b.weakhash) ∧
    (remotePortion cexEnv cexHashes).Pairwise
      (fun a b => cexHashes.indexOf a.weakhash < cexHashes.indexOf b.weakhash) :=
  C6_remote_order cexEnv cexHashes (by decide)

end Mixes
